import Mathlib

/-!
Verification development for the vouch-js extension (src/lib.rs, src/npm.rs).

The development shallowly embeds the pure computational core of the two
source files:
  * the serde_json value model and its read-indexing behaviour,
  * `npm.rs`: `get_parsed_version`, `parse_dependencies`, `get_dependencies`,
    `get_registry_host_name`,
  * `lib.rs`: `get_latest_version`, the version-resolution step of
    `registries_package_metadata`, the pure core of
    `identify_package_dependencies`, and `identify_dependency_files`.

I/O boundaries (file reads, HTTP fetches, the npm subprocess, the
filesystem) are passed in as explicit arguments: a parsed-or-failed JSON
document, a fetched registry document, a materialized lockfile document,
and an `is_file` predicate over paths.
-/

/-- JSON values, mirroring `serde_json::Value`. Objects are kept as ordered
association lists; the list order models the document/map key order that
serde map iteration exposes. Numbers are irrelevant to the verified code
paths and are carried as integers. -/
inductive Json where
  | null : Json
  | bool : Bool → Json
  | str : String → Json
  | num : Int → Json
  | arr : List Json → Json
  | obj : List (String × Json) → Json

/-- Association list backing a JSON object (`serde_json::Map`). -/
abbrev JsonObject := List (String × Json)

/-- Read-indexing `value[key]` of `serde_json::Value`: returns the member
when the value is an object containing the key, and `Null` otherwise
(wrong-type and missing-key accesses yield `Null`, not a panic). -/
def Json.index (j : Json) (key : String) : Json :=
  match j with
  | .obj kvs =>
    match kvs.find? (fun kv => kv.1 == key) with
    | some kv => kv.2
    | none => .null
  | _ => .null

/-- `Value::as_object`. -/
def Json.asObject : Json → Option JsonObject
  | .obj kvs => some kvs
  | _ => none

/-- `Value::as_bool`. -/
def Json.asBool : Json → Option Bool
  | .bool b => some b
  | _ => none

/-- `Value::as_str`. -/
def Json.asStr : Json → Option String
  | .str s => some s
  | _ => none

mutual

/-- Size measure on JSON values, used for the termination of the
dependency-tree traversals. Only object nesting matters. -/
def jsonSize : Json → Nat
  | .obj kvs => 1 + kvsSize kvs
  | _ => 1

/-- Size measure on JSON object member lists. -/
def kvsSize : JsonObject → Nat
  | [] => 0
  | (_, v) :: rest => 1 + jsonSize v + kvsSize rest

end

theorem jsonSize_snd_le_of_mem {kvs : JsonObject} {kv : String × Json}
    (h : kv ∈ kvs) : jsonSize kv.2 ≤ kvsSize kvs := by
  induction kvs with
  | nil => cases h
  | cons head rest ih =>
    obtain ⟨k, v⟩ := head
    rcases List.mem_cons.mp h with h' | h'
    · subst h'
      simp [kvsSize]
      omega
    · have := ih h'
      simp [kvsSize]
      omega

theorem kvsSize_lt_of_index_asObject {e : Json} {k : String} {sub : JsonObject}
    (h : ((e.index k).asObject) = some sub) : kvsSize sub < jsonSize e := by
  cases e with
  | obj kvs =>
    simp only [Json.index] at h
    cases hf : kvs.find? (fun kv => kv.1 == k) with
    | none => rw [hf] at h; simp [Json.asObject] at h
    | some kv =>
      rw [hf] at h
      have hmem : kv ∈ kvs := List.mem_of_find?_eq_some hf
      have hle := jsonSize_snd_le_of_mem hmem
      have h2 : kv.2.asObject = some sub := h
      cases hv : kv.2 with
      | obj kvs2 =>
        rw [hv] at h2 hle
        simp only [Json.asObject, Option.some.injEq] at h2
        subst h2
        simp only [jsonSize] at hle ⊢
        omega
      | null => rw [hv] at h2; simp [Json.asObject] at h2
      | bool b => rw [hv] at h2; simp [Json.asObject] at h2
      | str s => rw [hv] at h2; simp [Json.asObject] at h2
      | num n => rw [hv] at h2; simp [Json.asObject] at h2
      | arr xs => rw [hv] at h2; simp [Json.asObject] at h2
  | null => simp [Json.index, Json.asObject] at h
  | bool b => simp [Json.index, Json.asObject] at h
  | str s => simp [Json.index, Json.asObject] at h
  | num n => simp [Json.index, Json.asObject] at h
  | arr xs => simp [Json.index, Json.asObject] at h

/-- Version-parse errors of `vouch_lib::extension::common::VersionError`.
Only the missing-version constructor is exercised by this extension. -/
inductive VersionError where
  | missingVersion : VersionError
deriving DecidableEq, Repr

/-- `vouch_lib::extension::common::VersionParseResult = Result<String, VersionError>`. -/
abbrev VersionParseResult := Except VersionError String

instance : DecidableEq VersionParseResult := fun a b =>
  match a, b with
  | .ok x, .ok y => if h : x = y then .isTrue (by rw [h]) else .isFalse (by simp [h])
  | .ok _, .error _ => .isFalse (by simp)
  | .error _, .ok _ => .isFalse (by simp)
  | .error .missingVersion, .error .missingVersion => .isTrue rfl

/-- `npm.rs::get_parsed_version`: parse and clean a package version string.
A present, non-empty string is returned as-is; an absent or empty string
yields the missing-version error marker. -/
def get_parsed_version (version : Option String) : VersionParseResult :=
  match version with
  | some v => if v ≠ "" then .ok v else .error .missingVersion
  | none => .error .missingVersion

/-- `vouch_lib::extension::Dependency`: one dependency record, a package
name together with a version-parse result. -/
structure Dependency where
  name : String
  version : VersionParseResult
deriving DecidableEq, Repr

/-- Modelled from the spec: the total order on `VersionParseResult` used by
vouch_lib's derived `Ord` (records are "totally ordered by (name, version)");
`Ok` sorts before `Err`, `Ok` values compare by string order, mirroring
Rust's derived `Ord` on `Result`. -/
def verLe : VersionParseResult → VersionParseResult → Bool
  | .ok a, .ok b => decide (a ≤ b)
  | .ok _, .error _ => true
  | .error _, .ok _ => false
  | .error _, .error _ => true

/-- Modelled from the spec: the total order on dependency records,
lexicographic by name then version. -/
def depLe (a b : Dependency) : Bool :=
  if a.name = b.name then verLe a.version b.version else decide (a.name < b.name)

/-- The record order as a relation, for the sorting lemmas. -/
def depR (a b : Dependency) : Prop := depLe a b = true

instance : DecidableRel depR := fun a b => instDecidableEqBool (depLe a b) true

theorem verLe_total (u v : VersionParseResult) : verLe u v = true ∨ verLe v u = true := by
  cases u <;> cases v <;> simp [verLe]
  exact le_total _ _

theorem verLe_trans {u v w : VersionParseResult} (h1 : verLe u v = true)
    (h2 : verLe v w = true) : verLe u w = true := by
  cases u <;> cases v <;> cases w <;> simp_all [verLe]
  exact le_trans h1 h2

theorem verLe_antisymm {u v : VersionParseResult} (h1 : verLe u v = true)
    (h2 : verLe v u = true) : u = v := by
  cases u with
  | ok a =>
    cases v with
    | ok b =>
      simp only [verLe, decide_eq_true_eq] at h1 h2
      exact congrArg Except.ok (le_antisymm h1 h2)
    | error e => simp [verLe] at h2
  | error e =>
    cases v with
    | ok b => simp [verLe] at h1
    | error e2 => cases e; cases e2; rfl

theorem verLe_refl (u : VersionParseResult) : verLe u u = true := by
  cases u <;> simp [verLe]

theorem depR_refl (a : Dependency) : depR a a := by
  simp [depR, depLe, verLe_refl]

instance : IsTotal Dependency depR := by
  constructor
  intro a b
  unfold depR depLe
  by_cases h : a.name = b.name
  · rw [if_pos h, if_pos h.symm]
    exact verLe_total _ _
  · rw [if_neg h, if_neg (fun h' => h h'.symm)]
    rcases lt_or_le a.name b.name with h' | h'
    · left; simpa using h'
    · right
      rcases lt_or_eq_of_le h' with h'' | h''
      · simpa using h''
      · exact absurd h''.symm h

instance : IsTrans Dependency depR := by
  constructor
  intro a b c hab hbc
  unfold depR depLe at hab hbc ⊢
  by_cases h1 : a.name = b.name <;> by_cases h2 : b.name = c.name
  · rw [if_pos h1] at hab
    rw [if_pos h2] at hbc
    rw [if_pos (h1.trans h2)]
    exact verLe_trans hab hbc
  · rw [if_neg h2] at hbc
    simp only [decide_eq_true_eq] at hbc
    have hac : a.name < c.name := h1 ▸ hbc
    rw [if_neg (ne_of_lt hac)]
    exact decide_eq_true hac
  · rw [if_neg h1] at hab
    simp only [decide_eq_true_eq] at hab
    have hac : a.name < c.name := h2 ▸ hab
    rw [if_neg (ne_of_lt hac)]
    exact decide_eq_true hac
  · rw [if_neg h1] at hab
    rw [if_neg h2] at hbc
    simp only [decide_eq_true_eq] at hab hbc
    have hac : a.name < c.name := lt_trans hab hbc
    rw [if_neg (ne_of_lt hac)]
    exact decide_eq_true hac

instance : IsAntisymm Dependency depR := by
  constructor
  intro a b hab hba
  unfold depR depLe at hab hba
  by_cases h : a.name = b.name
  · rw [if_pos h] at hab
    rw [if_pos h.symm] at hba
    have := verLe_antisymm hab hba
    cases a; cases b
    simp_all
  · rw [if_neg h] at hab
    rw [if_neg (fun h' => h h'.symm)] at hba
    simp only [decide_eq_true_eq] at hab hba
    exact absurd hba (lt_asymm hab)

/-- The dev-exclusion test of `npm.rs::parse_dependencies` line 34: an entry
is skipped when dev dependencies are excluded and its `dev` field reads as
the boolean `true` (`as_bool().unwrap_or_default()`). -/
def devSkip (include_dev_dependencies : Bool) (entry : Json) : Bool :=
  !include_dev_dependencies && (((entry.index "dev").asBool).getD false)

/-- The record built from one visited entry (`npm.rs` lines 38-42): the
entry key as the name, the version through
`get_parsed_version (entry["version"].as_str())`. -/
def recordOf (kv : String × Json) : Dependency :=
  { name := kv.1, version := get_parsed_version ((kv.2.index "version").asStr) }

/-- The dependency records contributed directly by one dependency-group
object: one record per non-skipped entry. -/
def groupRecords (include_dev_dependencies : Bool) (g : JsonObject) : List Dependency :=
  g.filterMap (fun kv =>
    if devSkip include_dev_dependencies kv.2 then none else some (recordOf kv))

/-- The nested `dependencies` objects enqueued while processing one group:
per `npm.rs` lines 34-46, the `continue` for a dev-skipped entry fires
before the nested-dependencies push, so skipped entries enqueue nothing. -/
def pushedGroups (include_dev_dependencies : Bool) (g : JsonObject) : List JsonObject :=
  g.filterMap (fun kv =>
    if devSkip include_dev_dependencies kv.2 then none
    else ((kv.2.index "dependencies").asObject))

/-- Termination measure for the breadth-first work queue. -/
def queueMeasure : List JsonObject → Nat
  | [] => 0
  | g :: rest => 1 + kvsSize g + queueMeasure rest

theorem queueMeasure_append (a b : List JsonObject) :
    queueMeasure (a ++ b) = queueMeasure a + queueMeasure b := by
  induction a with
  | nil => simp [queueMeasure]
  | cons g rest ih => simp [queueMeasure, ih]; omega

theorem queueMeasure_pushedGroups_le (inc : Bool) (g : JsonObject) :
    queueMeasure (pushedGroups inc g) ≤ kvsSize g := by
  induction g with
  | nil => simp [pushedGroups, queueMeasure]
  | cons kv rest ih =>
    obtain ⟨k, v⟩ := kv
    simp only [pushedGroups, List.filterMap_cons] at ih ⊢
    by_cases hs : devSkip inc v
    · simp only [hs, if_pos]
      calc queueMeasure (List.filterMap _ rest) ≤ kvsSize rest := ih
        _ ≤ kvsSize ((k, v) :: rest) := by simp only [kvsSize]; omega
    · simp only [hs, if_neg, Bool.false_eq_true, not_false_iff]
      cases ho : (v.index "dependencies").asObject with
      | none =>
        calc queueMeasure (List.filterMap _ rest) ≤ kvsSize rest := ih
          _ ≤ kvsSize ((k, v) :: rest) := by simp only [kvsSize]; omega
      | some sub =>
        have hlt := kvsSize_lt_of_index_asObject ho
        simp only [queueMeasure, kvsSize]
        omega

/-- The breadth-first collection loop of `npm.rs::parse_dependencies`
(lines 32-48): pop a dependency group, contribute its records, and enqueue
the nested `dependencies` objects of its non-skipped entries. Record order
is the traversal order; deduplication and sorting happen afterwards. -/
def bfsCollect (include_dev_dependencies : Bool) (queue : List JsonObject) :
    List Dependency :=
  match queue with
  | [] => []
  | g :: rest =>
    groupRecords include_dev_dependencies g ++
      bfsCollect include_dev_dependencies (rest ++ pushedGroups include_dev_dependencies g)
termination_by queueMeasure queue
decreasing_by
  have h1 := queueMeasure_append rest (pushedGroups include_dev_dependencies g)
  have h2 := queueMeasure_pushedGroups_le include_dev_dependencies g
  simp only [queueMeasure]
  omega

/-- Recursive-descent restatement of the same traversal, used to
characterize which entries are visited: a non-skipped entry contributes its
record followed by the records of its nested `dependencies` subtree; a
dev-skipped entry contributes nothing and its subtree is not descended
into. -/
def descend (inc : Bool) : JsonObject → List Dependency
  | [] => []
  | (name, entry) :: rest =>
    (if devSkip inc entry then []
     else
       recordOf (name, entry) ::
         (match h : (entry.index "dependencies").asObject with
          | some sub => descend inc sub
          | none => [])) ++ descend inc rest
termination_by g => kvsSize g
decreasing_by
  · have := kvsSize_lt_of_index_asObject h
    simp only [kvsSize]
    omega
  · simp only [kvsSize]
    omega

/-- The entries visited by the traversal that pass the dev filter, with the
key each was recorded under. -/
def visitedEntries (inc : Bool) : JsonObject → List (String × Json)
  | [] => []
  | (name, entry) :: rest =>
    (if devSkip inc entry then []
     else
       (name, entry) ::
         (match h : (entry.index "dependencies").asObject with
          | some sub => visitedEntries inc sub
          | none => [])) ++ visitedEntries inc rest
termination_by g => kvsSize g
decreasing_by
  · have := kvsSize_lt_of_index_asObject h
    simp only [kvsSize]
    omega
  · simp only [kvsSize]
    omega

/-- The initial work queue of `parse_dependencies`: the document's
top-level `dependencies` object, when it is an object. -/
def initSections (package_entry : Json) : List JsonObject :=
  match (package_entry.index "dependencies").asObject with
  | some dependencies => [dependencies]
  | none => []

/-- The final sort of `parse_dependencies` (`all_dependencies.sort()`),
using the record order. -/
def sortDeps (l : List Dependency) : List Dependency :=
  List.insertionSort depR l

/-- `npm.rs::parse_dependencies`: breadth-first flattening of the nested
dependency tree into a set (modelled by `List.dedup` of the collected
records, mirroring the `HashSet`), emitted as a sorted list. The source
returns `Result` but has no failure path. -/
def parse_dependencies (package_entry : Json) (include_dev_dependencies : Bool) :
    List Dependency :=
  sortDeps ((bfsCollect include_dev_dependencies (initSections package_entry)).dedup)

/-- `npm.rs::get_dependencies`: reads and JSON-parses the lockfile, then
extracts dependencies. The file read and serde parse are modelled by the
`parsed` argument: `.error` is a failed read/parse (the serde error with
its context message), `.ok` the parsed document. -/
def get_dependencies (parsed : Except String Json) (include_dev_dependencies : Bool) :
    Except String (List Dependency) :=
  match parsed with
  | .error e => .error e
  | .ok package_entry => .ok (parse_dependencies package_entry include_dev_dependencies)

/-- `npm.rs::get_registry_host_name` and the `HOST_NAME` static. -/
def get_registry_host_name : String := "npmjs.com"

theorem bfsCollect_nil (inc : Bool) : bfsCollect inc [] = [] := by
  rw [bfsCollect]

theorem bfsCollect_cons (inc : Bool) (g : JsonObject) (rest : List JsonObject) :
    bfsCollect inc (g :: rest) =
      groupRecords inc g ++ bfsCollect inc (rest ++ pushedGroups inc g) := by
  rw [bfsCollect]

theorem descend_nil (inc : Bool) : descend inc [] = [] := by
  rw [descend]

theorem descend_cons_skip {inc : Bool} {v : Json} (k : String) (rest : JsonObject)
    (hs : devSkip inc v = true) :
    descend inc ((k, v) :: rest) = descend inc rest := by
  rw [descend]
  rw [if_pos hs]
  rw [List.nil_append]

theorem descend_cons_sub {inc : Bool} {v : Json} {sub : JsonObject} (k : String)
    (rest : JsonObject) (hs : devSkip inc v = false)
    (ho : (v.index "dependencies").asObject = some sub) :
    descend inc ((k, v) :: rest) =
      recordOf (k, v) :: (descend inc sub ++ descend inc rest) := by
  rw [descend]
  rw [if_neg (by simp [hs])]
  rw [List.cons_append]
  congr 1
  congr 1
  split
  · rename_i sub2 heq
    rw [ho] at heq
    cases heq
    rfl
  · rename_i heq
    rw [ho] at heq
    cases heq

theorem descend_cons_none {inc : Bool} {v : Json} (k : String) (rest : JsonObject)
    (hs : devSkip inc v = false) (ho : (v.index "dependencies").asObject = none) :
    descend inc ((k, v) :: rest) = recordOf (k, v) :: descend inc rest := by
  rw [descend]
  rw [if_neg (by simp [hs])]
  rw [List.cons_append]
  congr 1
  rw [show (match h : (v.index "dependencies").asObject with
      | some sub => descend inc sub
      | none => []) = [] from by split <;> simp_all]
  rw [List.nil_append]

theorem visitedEntries_nil (inc : Bool) : visitedEntries inc [] = [] := by
  rw [visitedEntries]

theorem visitedEntries_cons_skip {inc : Bool} {v : Json} (k : String) (rest : JsonObject)
    (hs : devSkip inc v = true) :
    visitedEntries inc ((k, v) :: rest) = visitedEntries inc rest := by
  rw [visitedEntries]
  rw [if_pos hs]
  rw [List.nil_append]

theorem visitedEntries_cons_sub {inc : Bool} {v : Json} {sub : JsonObject} (k : String)
    (rest : JsonObject) (hs : devSkip inc v = false)
    (ho : (v.index "dependencies").asObject = some sub) :
    visitedEntries inc ((k, v) :: rest) =
      (k, v) :: (visitedEntries inc sub ++ visitedEntries inc rest) := by
  rw [visitedEntries]
  rw [if_neg (by simp [hs])]
  rw [List.cons_append]
  congr 1
  congr 1
  split
  · rename_i sub2 heq
    rw [ho] at heq
    cases heq
    rfl
  · rename_i heq
    rw [ho] at heq
    cases heq

theorem visitedEntries_cons_none {inc : Bool} {v : Json} (k : String) (rest : JsonObject)
    (hs : devSkip inc v = false) (ho : (v.index "dependencies").asObject = none) :
    visitedEntries inc ((k, v) :: rest) = (k, v) :: visitedEntries inc rest := by
  rw [visitedEntries]
  rw [if_neg (by simp [hs])]
  rw [List.cons_append]
  congr 1
  rw [show (match h : (v.index "dependencies").asObject with
      | some sub => visitedEntries inc sub
      | none => []) = [] from by split <;> simp_all]
  rw [List.nil_append]

open List in
theorem descend_perm (inc : Bool) (g : JsonObject) :
    List.Perm (descend inc g)
      (groupRecords inc g ++ ((pushedGroups inc g).map (descend inc)).flatten) := by
  induction g with
  | nil => simp [descend_nil, groupRecords, pushedGroups]
  | cons kv rest ih =>
    obtain ⟨k, v⟩ := kv
    by_cases hs : devSkip inc v
    · rw [descend_cons_skip k rest hs]
      have hg : groupRecords inc ((k, v) :: rest) = groupRecords inc rest := by
        simp [groupRecords, List.filterMap_cons, hs]
      have hp : pushedGroups inc ((k, v) :: rest) = pushedGroups inc rest := by
        simp [pushedGroups, List.filterMap_cons, hs]
      rw [hg, hp]
      exact ih
    · rw [Bool.not_eq_true] at hs
      have hg : groupRecords inc ((k, v) :: rest) =
          recordOf (k, v) :: groupRecords inc rest := by
        simp [groupRecords, List.filterMap_cons, hs]
      cases ho : (v.index "dependencies").asObject with
      | some sub =>
        rw [descend_cons_sub k rest hs ho, hg]
        have hp : pushedGroups inc ((k, v) :: rest) = sub :: pushedGroups inc rest := by
          simp [pushedGroups, List.filterMap_cons, hs, ho]
        rw [hp, List.map_cons, List.flatten_cons, List.cons_append]
        refine List.Perm.cons _ ?_
        calc descend inc sub ++ descend inc rest
            ~ descend inc sub ++ (groupRecords inc rest ++
              ((pushedGroups inc rest).map (descend inc)).flatten) := ih.append_left _
          _ = (descend inc sub ++ groupRecords inc rest) ++
              ((pushedGroups inc rest).map (descend inc)).flatten := by
                rw [List.append_assoc]
          _ ~ (groupRecords inc rest ++ descend inc sub) ++
              ((pushedGroups inc rest).map (descend inc)).flatten :=
                List.Perm.append_right _ List.perm_append_comm
          _ = groupRecords inc rest ++ (descend inc sub ++
              ((pushedGroups inc rest).map (descend inc)).flatten) := by
                rw [List.append_assoc]
      | none =>
        rw [descend_cons_none k rest hs ho, hg]
        have hp : pushedGroups inc ((k, v) :: rest) = pushedGroups inc rest := by
          simp [pushedGroups, List.filterMap_cons, hs, ho]
        rw [hp, List.cons_append]
        exact List.Perm.cons _ ih

theorem queueMeasure_eq_zero {queue : List JsonObject} (h : queueMeasure queue = 0) :
    queue = [] := by
  cases queue with
  | nil => rfl
  | cons g rest => simp only [queueMeasure] at h; omega

open List in
theorem bfsCollect_perm (inc : Bool) :
    ∀ (n : Nat) (queue : List JsonObject), queueMeasure queue ≤ n →
      List.Perm (bfsCollect inc queue) ((queue.map (descend inc)).flatten) := by
  intro n
  induction n with
  | zero =>
    intro queue h
    have hq : queue = [] := queueMeasure_eq_zero (Nat.le_zero.mp h)
    subst hq
    simp [bfsCollect_nil]
  | succ n ih =>
    intro queue h
    cases queue with
    | nil => simp [bfsCollect_nil]
    | cons g rest =>
      have hm := queueMeasure_append rest (pushedGroups inc g)
      have hp := queueMeasure_pushedGroups_le inc g
      have hle : queueMeasure (rest ++ pushedGroups inc g) ≤ n := by
        simp only [queueMeasure] at h
        omega
      have hrec := ih (rest ++ pushedGroups inc g) hle
      rw [List.map_append, List.flatten_append] at hrec
      rw [bfsCollect_cons, List.map_cons, List.flatten_cons]
      calc groupRecords inc g ++ bfsCollect inc (rest ++ pushedGroups inc g)
          ~ groupRecords inc g ++ ((rest.map (descend inc)).flatten ++
            ((pushedGroups inc g).map (descend inc)).flatten) := hrec.append_left _
        _ ~ groupRecords inc g ++ (((pushedGroups inc g).map (descend inc)).flatten ++
            (rest.map (descend inc)).flatten) :=
              List.Perm.append_left _ List.perm_append_comm
        _ = (groupRecords inc g ++ ((pushedGroups inc g).map (descend inc)).flatten) ++
            (rest.map (descend inc)).flatten := by rw [List.append_assoc]
        _ ~ descend inc g ++ (rest.map (descend inc)).flatten :=
              List.Perm.append_right _ (descend_perm inc g).symm

/-- The dependency records of the whole document under the
recursive-descent reading: the records of the top-level `dependencies`
object's subtree. -/
def descTop (inc : Bool) (doc : Json) : List Dependency :=
  ((initSections doc).map (descend inc)).flatten

/-- The visited, dev-filter-passing entries of the whole document. -/
def visitedTop (inc : Bool) (doc : Json) : List (String × Json) :=
  ((initSections doc).map (visitedEntries inc)).flatten

theorem sortDeps_sorted (l : List Dependency) : List.Sorted depR (sortDeps l) :=
  List.sorted_insertionSort depR l

theorem sortDeps_perm (l : List Dependency) : List.Perm (sortDeps l) l :=
  List.perm_insertionSort depR l

theorem sortDeps_eq_of_perm {l₁ l₂ : List Dependency} (h : List.Perm l₁ l₂) :
    sortDeps l₁ = sortDeps l₂ :=
  List.eq_of_perm_of_sorted
    ((sortDeps_perm l₁).trans (h.trans (sortDeps_perm l₂).symm))
    (sortDeps_sorted l₁) (sortDeps_sorted l₂)

/-- The breadth-first implementation equals the recursive-descent reading,
up to the final canonicalization: `parse_dependencies` is the sorted
deduplication of the records of the pruned dependency tree. -/
theorem parse_dependencies_eq_canonical (doc : Json) (inc : Bool) :
    parse_dependencies doc inc = sortDeps ((descTop inc doc).dedup) := by
  unfold parse_dependencies descTop
  exact sortDeps_eq_of_perm
    ((bfsCollect_perm inc (queueMeasure (initSections doc)) (initSections doc)
      le_rfl).dedup)

theorem mem_parse_dependencies_iff {doc : Json} {inc : Bool} {d : Dependency} :
    d ∈ parse_dependencies doc inc ↔ d ∈ descTop inc doc := by
  rw [parse_dependencies_eq_canonical]
  unfold sortDeps
  rw [List.mem_insertionSort]
  exact List.mem_dedup

theorem parse_dependencies_sorted (doc : Json) (inc : Bool) :
    List.Sorted depR (parse_dependencies doc inc) := by
  rw [parse_dependencies_eq_canonical]
  exact sortDeps_sorted _

theorem parse_dependencies_nodup (doc : Json) (inc : Bool) :
    (parse_dependencies doc inc).Nodup := by
  rw [parse_dependencies_eq_canonical]
  exact (sortDeps_perm _).symm.nodup (List.nodup_dedup _)

theorem descend_eq_map_visited (inc : Bool) :
    ∀ (n : Nat) (g : JsonObject), kvsSize g ≤ n →
      descend inc g = (visitedEntries inc g).map recordOf := by
  intro n
  induction n with
  | zero =>
    intro g h
    cases g with
    | nil => simp [descend_nil, visitedEntries_nil]
    | cons kv rest =>
      obtain ⟨k, v⟩ := kv
      simp only [kvsSize] at h
      omega
  | succ n ih =>
    intro g h
    cases g with
    | nil => simp [descend_nil, visitedEntries_nil]
    | cons kv rest =>
      obtain ⟨k, v⟩ := kv
      simp only [kvsSize] at h
      have hrest : kvsSize rest ≤ n := by omega
      by_cases hs : devSkip inc v
      · rw [descend_cons_skip k rest hs, visitedEntries_cons_skip k rest hs]
        exact ih rest hrest
      · rw [Bool.not_eq_true] at hs
        cases ho : (v.index "dependencies").asObject with
        | some sub =>
          have hsub : kvsSize sub ≤ n := by
            have := kvsSize_lt_of_index_asObject ho
            omega
          rw [descend_cons_sub k rest hs ho, visitedEntries_cons_sub k rest hs ho]
          rw [List.map_cons, List.map_append]
          rw [ih sub hsub, ih rest hrest]
        | none =>
          rw [descend_cons_none k rest hs ho, visitedEntries_cons_none k rest hs ho]
          rw [List.map_cons, ih rest hrest]

theorem descTop_eq_map_visited (inc : Bool) (doc : Json) :
    descTop inc doc = (visitedTop inc doc).map recordOf := by
  unfold descTop visitedTop
  cases ho : (doc.index "dependencies").asObject with
  | some deps =>
    simp [initSections, ho, descend_eq_map_visited inc (kvsSize deps) deps le_rfl]
  | none => simp [initSections, ho]

/-- `lib.rs::get_latest_version`: given the fetched registry document for
the package (the HTTP fetch of `get_registry_entry_json` is modelled by
passing the already-fetched document), return the last key of its
`versions` object (`versions.keys().last()`), or an error when the
document has no `versions` object. -/
def get_latest_version (registry_json : Json) : Except String (Option String) :=
  match (registry_json.index "versions").asObject with
  | none => .error "Failed to find versions JSON section."
  | some versions => .ok (versions.map Prod.fst).getLast?

/-- The version-resolution step of `lib.rs::registries_package_metadata`
(lines 138-142): a supplied version is used verbatim; otherwise
`get_latest_version` on the registry document; a still-undetermined
version is the not-found error. -/
def resolve_package_version (package_version : Option String) (registry_json : Json) :
    Except String String :=
  match
    (match package_version with
     | some v => Except.ok (some v)
     | none => get_latest_version registry_json) with
  | .error e => .error e
  | .ok (some v) => .ok v
  | .ok none => .error "Failed to find package version."

instance : BEq VersionParseResult := instBEqOfDecidableEq

/-- `vouch_lib::extension::PackageDependencies`: the per-registry result of
`identify_package_dependencies`. -/
structure PackageDependencies where
  package_version : VersionParseResult
  registry_host_name : String
  dependencies : List Dependency
deriving DecidableEq, Repr

/-- `lib.rs::identify_package_dependencies`, from the point where the
npm-materialized lockfile has been read (the subprocess, temporary
directory and file read are modelled by passing the produced lockfile
document): extract dependencies with dev dependencies excluded, resolve
the target's own version (the supplied one verbatim, otherwise the first
element after sorting and reversing the same-named records, failing when
there is none), filter the target out of its own dependency list by name
and by resolved version, and return the single registry's result. -/
def identify_package_dependencies (package_name : String)
    (package_version : Option String) (package_lock : Json) :
    Except String (List PackageDependencies) :=
  let dependencies : List Dependency := parse_dependencies package_lock false
  match
    ((match package_version with
     | some v => Except.ok (Except.ok v : VersionParseResult)
     | none =>
       let target_package_instances : List Dependency :=
         dependencies.filter (fun d => d.name == package_name)
       match (sortDeps target_package_instances).reverse.head? with
       | some target_package_instance => Except.ok target_package_instance.version
       | none =>
         Except.error "Failed to find target package in dependencies list.") :
       Except String VersionParseResult) with
  | .error e => .error e
  | .ok pv =>
    .ok [{ package_version := pv,
           registry_host_name := get_registry_host_name,
           dependencies := dependencies.filter
             (fun d => d.name != package_name && d.version != pv) }]

/-- `lib.rs::DependencyFileType`: the recognized dependency-file kinds. -/
inductive DependencyFileType where
  | npm : DependencyFileType
deriving DecidableEq, Repr

/-- `DependencyFileType::file_name`. -/
def DependencyFileType.file_name : DependencyFileType → String
  | .npm => "package-lock.json"

/-- The `strum` iteration order over the dependency-file kinds. -/
def dependencyFileTypeIter : List DependencyFileType := [.npm]

/-- `lib.rs::DependencyFile`: a recognized kind with its absolute path.
Absolute paths are modelled as component lists from the filesystem root. -/
structure DependencyFile where
  type : DependencyFileType
  path : List String
deriving DecidableEq, Repr

/-- One level of the locator loop (`lib.rs` lines 256-266): the dependency
files found directly in `working_directory`, over all recognized kinds,
querying the filesystem through the `is_file` predicate. -/
def filesAt (is_file : List String → Bool) (working_directory : List String) :
    List DependencyFile :=
  dependencyFileTypeIter.filterMap (fun dependency_file_type =>
    let target_absolute_path := working_directory ++ [dependency_file_type.file_name]
    if is_file target_absolute_path then
      some { type := dependency_file_type, path := target_absolute_path }
    else none)

/-- `lib.rs::identify_dependency_files`: walk up the directory tree from
the working directory, returning the full set of dependency files at the
first level where at least one is found, or `None` once the filesystem
root (modelled as `[]`; `PathBuf::pop` is `dropLast`) has been searched
without success. The `assert!` that the start directory is absolute is
inherent in the component-list representation. -/
def identify_dependency_files (is_file : List String → Bool)
    (working_directory : List String) : Option (List DependencyFile) :=
  let dependency_files := filesAt is_file working_directory
  if dependency_files.isEmpty then
    match working_directory with
    | [] => none
    | a :: rest => identify_dependency_files is_file ((a :: rest).dropLast)
  else some dependency_files
termination_by working_directory.length
decreasing_by
  simp

/-- The chain of directories the locator may visit: the start directory,
then each ancestor up to and including the root. -/
def ancestorChain : List String → List (List String)
  | [] => [[]]
  | a :: rest => (a :: rest) :: ancestorChain ((a :: rest).dropLast)
termination_by d => d.length
decreasing_by
  simp

theorem identify_dependency_files_found {is_file : List String → Bool}
    {working_directory : List String}
    (h : (filesAt is_file working_directory).isEmpty = false) :
    identify_dependency_files is_file working_directory =
      some (filesAt is_file working_directory) := by
  rw [identify_dependency_files.eq_def]
  simp [h]

theorem identify_dependency_files_root {is_file : List String → Bool}
    (h : (filesAt is_file []).isEmpty = true) :
    identify_dependency_files is_file [] = none := by
  rw [identify_dependency_files.eq_def]
  simp [h]

theorem identify_dependency_files_step {is_file : List String → Bool} {a : String}
    {rest : List String} (h : (filesAt is_file (a :: rest)).isEmpty = true) :
    identify_dependency_files is_file (a :: rest) =
      identify_dependency_files is_file ((a :: rest).dropLast) := by
  rw [identify_dependency_files.eq_def]
  simp [h]

theorem ancestorChain_nil : ancestorChain [] = [[]] := by
  rw [ancestorChain]

theorem ancestorChain_cons (a : String) (rest : List String) :
    ancestorChain (a :: rest) = (a :: rest) :: ancestorChain ((a :: rest).dropLast) := by
  rw [ancestorChain]

theorem identify_dependency_files_eq_find (is_file : List String → Bool) :
    ∀ (n : Nat) (dir : List String), dir.length ≤ n →
      identify_dependency_files is_file dir =
        ((ancestorChain dir).find? (fun a => !(filesAt is_file a).isEmpty)).map
          (filesAt is_file) := by
  intro n
  induction n with
  | zero =>
    intro dir h
    have hd : dir = [] := List.length_eq_zero.mp (Nat.le_zero.mp h)
    subst hd
    rw [ancestorChain_nil]
    cases he : (filesAt is_file []).isEmpty with
    | true =>
      rw [identify_dependency_files_root he]
      rw [List.find?_cons_of_neg _ (by simp [he])]
      simp [List.find?]
    | false =>
      rw [identify_dependency_files_found he]
      rw [List.find?_cons_of_pos _ (by simp [he])]
      simp
  | succ n ih =>
    intro dir h
    cases dir with
    | nil =>
      rw [ancestorChain_nil]
      cases he : (filesAt is_file []).isEmpty with
      | true =>
        rw [identify_dependency_files_root he]
        rw [List.find?_cons_of_neg _ (by simp [he])]
        simp [List.find?]
      | false =>
        rw [identify_dependency_files_found he]
        rw [List.find?_cons_of_pos _ (by simp [he])]
        simp
    | cons a rest =>
      rw [ancestorChain_cons]
      cases he : (filesAt is_file (a :: rest)).isEmpty with
      | true =>
        rw [identify_dependency_files_step he]
        rw [List.find?_cons_of_neg _ (by simp [he])]
        apply ih
        simp only [List.length_cons] at h
        simp [List.length_dropLast]
        omega
      | false =>
        rw [identify_dependency_files_found he]
        rw [List.find?_cons_of_pos _ (by simp [he])]
        simp

theorem sorted_rel_of_reverse_head {l : List Dependency} {m x : Dependency}
    (hs : List.Sorted depR l) (hm : l.reverse.head? = some m) (hx : x ∈ l) :
    depR x m := by
  cases hr : l.reverse with
  | nil => rw [hr] at hm; simp at hm
  | cons y t =>
    rw [hr] at hm
    simp only [List.head?_cons, Option.some.injEq] at hm
    subst hm
    have hp : List.Pairwise (fun a b => depR b a) l.reverse := by
      rw [List.pairwise_reverse]
      exact hs
    rw [hr] at hp
    have hx' : x ∈ l.reverse := List.mem_reverse.mpr hx
    rw [hr] at hx'
    rcases List.mem_cons.mp hx' with h | h
    · subst h; exact depR_refl _
    · exact (List.pairwise_cons.mp hp).1 x h

theorem mem_of_reverse_head {l : List Dependency} {m : Dependency}
    (hm : l.reverse.head? = some m) : m ∈ l := by
  cases hr : l.reverse with
  | nil => rw [hr] at hm; simp at hm
  | cons y t =>
    rw [hr] at hm
    simp only [List.head?_cons, Option.some.injEq] at hm
    rw [← List.mem_reverse, hr, ← hm]
    exact List.mem_cons_self _ _

theorem identify_some_version (package_name : String) (v : String) (package_lock : Json) :
    identify_package_dependencies package_name (some v) package_lock =
      .ok [{ package_version := Except.ok v,
             registry_host_name := get_registry_host_name,
             dependencies := (parse_dependencies package_lock false).filter
               (fun d => d.name != package_name &&
                 d.version != (Except.ok v : VersionParseResult)) }] := rfl

theorem identify_none_version_some {package_name : String} {package_lock : Json}
    {inst : Dependency}
    (h : (sortDeps ((parse_dependencies package_lock false).filter
        (fun d => d.name == package_name))).reverse.head? = some inst) :
    identify_package_dependencies package_name none package_lock =
      .ok [{ package_version := inst.version,
             registry_host_name := get_registry_host_name,
             dependencies := (parse_dependencies package_lock false).filter
               (fun d => d.name != package_name && d.version != inst.version) }] := by
  simp only [identify_package_dependencies]
  rw [h]

theorem identify_none_version_none {package_name : String} {package_lock : Json}
    (h : (sortDeps ((parse_dependencies package_lock false).filter
        (fun d => d.name == package_name))).reverse.head? = none) :
    identify_package_dependencies package_name none package_lock =
      .error "Failed to find target package in dependencies list." := by
  simp only [identify_package_dependencies]
  rw [h]

theorem identify_ok_shape {package_name : String} {package_version : Option String}
    {package_lock : Json} {res : List PackageDependencies}
    (h : identify_package_dependencies package_name package_version package_lock =
      .ok res) :
    ∃ pv, res = [{ package_version := pv,
                   registry_host_name := get_registry_host_name,
                   dependencies := (parse_dependencies package_lock false).filter
                     (fun d => d.name != package_name && d.version != pv) }] := by
  cases package_version with
  | some v =>
    rw [identify_some_version] at h
    refine ⟨Except.ok v, ?_⟩
    injection h with h'
    exact h'.symm
  | none =>
    cases hh : (sortDeps ((parse_dependencies package_lock false).filter
        (fun d => d.name == package_name))).reverse.head? with
    | some inst =>
      rw [identify_none_version_some hh] at h
      refine ⟨inst.version, ?_⟩
      injection h with h'
      exact h'.symm
    | none =>
      rw [identify_none_version_none hh] at h
      exact absurd h (by simp)

/-- A lockfile document with a dev-flagged entry that itself nests a
non-dev dependency. -/
def devPrunedDoc : Json :=
  .obj [("dependencies", .obj [("a", .obj [("dev", .bool true), ("version", .str "1.0.0"),
    ("dependencies", .obj [("b", .obj [("version", .str "2.0.0")])])])])]

/-- A lockfile document carrying the same (name, version) pair at two
different nesting positions. -/
def duplicatedPairDoc : Json :=
  .obj [("dependencies", .obj [("x", .obj [("version", .str "1.0.0"),
    ("dependencies", .obj [("x", .obj [("version", .str "1.0.0")])])])])]

/-- A lockfile with records x@1.0.0 and y@2.0.0, y nested under x. -/
def orderDocA : Json :=
  .obj [("dependencies", .obj [("x", .obj [("version", .str "1.0.0"),
    ("dependencies", .obj [("y", .obj [("version", .str "2.0.0")])])])])]

/-- A lockfile with the same records as `orderDocA` but with x nested
under y: the traversal meets the records in the opposite order. -/
def orderDocB : Json :=
  .obj [("dependencies", .obj [("y", .obj [("version", .str "2.0.0"),
    ("dependencies", .obj [("x", .obj [("version", .str "1.0.0")])])])])]

/-- A lockfile whose first entry has no `version` field, whose second has
an empty `version`, and whose third is well-formed. -/
def missingVersionDoc : Json :=
  .obj [("dependencies", .obj [("a", .obj []), ("b", .obj [("version", .str "")]),
    ("c", .obj [("version", .str "1.0.0")])])]

/-- A lockfile listing the target package t at two versions, one nested. -/
def multiTargetLock : Json :=
  .obj [("dependencies", .obj [
    ("t", .obj [("version", .str "1.0.0")]),
    ("s", .obj [("version", .str "2.0.0"),
      ("dependencies", .obj [("t", .obj [("version", .str "1.5.0")])])])])]

/-- A lockfile where package u shares the target t's resolved version. -/
def sharedVersionLock : Json :=
  .obj [("dependencies", .obj [
    ("t", .obj [("version", .str "1.0.0")]),
    ("u", .obj [("version", .str "1.0.0")]),
    ("w", .obj [("version", .str "2.0.0")])])]

/-- A lockfile with no record named t. -/
def noTargetLock : Json :=
  .obj [("dependencies", .obj [("x", .obj [("version", .str "1.0.0")])])]

/-- A registry document whose `versions` object lists two versions. -/
def versionsDoc : Json :=
  .obj [("versions", .obj [("1.0.0", .obj []), ("1.1.0", .obj [])])]

/-- A filesystem with exactly one manifest file, at directory /a. -/
def locatorExampleFs : List String → Bool :=
  fun p => p == ["a", "package-lock.json"]

/-- C1 counterexample: `devPrunedDoc` nests the non-dev entry b@2.0.0
inside the dev-flagged entry a. With includeDev = false the extraction
yields nothing at all — b is not visited, contradicting the claim that a
dev-excluded entry's nested dependencies are still enqueued and its
descendants extracted. With includeDev = true both records appear, showing
the descendant exists and is reachable when the entry is not skipped. -/
theorem c1_counterexample :
    parse_dependencies devPrunedDoc false = [] ∧
    parse_dependencies devPrunedDoc true =
      [{ name := "a", version := .ok "1.0.0" },
       { name := "b", version := .ok "2.0.0" }] := by
  constructor
  · simp [devPrunedDoc, parse_dependencies, initSections, bfsCollect, groupRecords,
      pushedGroups, devSkip, Json.index, Json.asObject, Json.asBool, Json.asStr,
      get_parsed_version, recordOf, sortDeps, List.insertionSort, List.orderedInsert,
      depR, depLe, verLe, List.dedup, List.find?]
  · simp [devPrunedDoc, parse_dependencies, initSections, bfsCollect, groupRecords,
      pushedGroups, devSkip, Json.index, Json.asObject, Json.asBool, Json.asStr,
      get_parsed_version, recordOf, sortDeps, List.insertionSort, List.orderedInsert,
      depR, depLe, verLe, List.dedup, List.find?]
    decide

/-- C1 (amended): for every entry whose `dev` field is true while
includeDev is false, the entry contributes no DependencyRecord and its
nested `dependencies` object is not enqueued either: dev-exclusion prunes
the whole subtree. The records extracted are exactly the records of the
entries visited by the pruned descent (`visitedEntries` skips a
dev-excluded entry together with its subtree). -/
theorem c1_amended_dev_exclusion_prunes (doc : Json) (inc : Bool) (d : Dependency) :
    d ∈ parse_dependencies doc inc ↔ ∃ p ∈ visitedTop inc doc, recordOf p = d := by
  rw [mem_parse_dependencies_iff, descTop_eq_map_visited]
  exact List.mem_map

/-- C2: for every parsed manifest document and includeDev flag, the
extracted sequence is sorted ascending in the record order and free of
duplicates; the output is determined by the set of visited records alone
(insertion/traversal order is irrelevant); and a manifest containing the
same (name, version) pair at two nesting positions yields exactly one
record. -/
theorem c2_sorted_dedup_canonical :
    (∀ (doc : Json) (inc : Bool),
      List.Sorted depR (parse_dependencies doc inc) ∧
        (parse_dependencies doc inc).Nodup) ∧
    (∀ (doc1 doc2 : Json) (inc1 inc2 : Bool),
      (descTop inc1 doc1).toFinset = (descTop inc2 doc2).toFinset →
      parse_dependencies doc1 inc1 = parse_dependencies doc2 inc2) ∧
    parse_dependencies duplicatedPairDoc false =
      [{ name := "x", version := .ok "1.0.0" }] := by
  refine ⟨fun doc inc =>
      ⟨parse_dependencies_sorted doc inc, parse_dependencies_nodup doc inc⟩,
    fun d1 d2 i1 i2 hf => ?_, ?_⟩
  · rw [parse_dependencies_eq_canonical, parse_dependencies_eq_canonical]
    exact sortDeps_eq_of_perm (List.toFinset_eq_iff_perm_dedup.mp hf)
  · simp [duplicatedPairDoc, parse_dependencies, initSections, bfsCollect, groupRecords,
      pushedGroups, devSkip, Json.index, Json.asObject, Json.asBool, Json.asStr,
      get_parsed_version, recordOf, sortDeps, List.insertionSort, List.orderedInsert,
      depR, depLe, verLe, List.dedup, List.find?]

/-- C2 witness: two manifests with the same record set at different
nesting positions (so the traversal meets the records in opposite orders)
produce identical output sequences. -/
theorem c2_witness :
    parse_dependencies orderDocA false = parse_dependencies orderDocB false :=
  c2_sorted_dedup_canonical.2.1 orderDocA orderDocB false false (by
    simp [orderDocA, orderDocB, descTop, initSections, descend, devSkip, Json.index,
      Json.asObject, Json.asBool, Json.asStr, get_parsed_version, recordOf, List.find?]
    decide)

/-- C3: a caller-supplied version is used verbatim; with no supplied
version, the resolution returns the last key of the registry document's
`versions` object in the document's own key order (no semantic-version
comparison — the key list is used as-is), and fails when no version can be
determined this way (no `versions` object, or an empty one). -/
theorem c3_version_resolution :
    (∀ (v : String) (registry_json : Json),
      resolve_package_version (some v) registry_json = .ok v) ∧
    (∀ (registry_json : Json) (versions : JsonObject),
      (registry_json.index "versions").asObject = some versions →
      resolve_package_version none registry_json =
        (match (versions.map Prod.fst).getLast? with
         | some latest => .ok latest
         | none => .error "Failed to find package version.")) ∧
    (∀ registry_json : Json,
      (registry_json.index "versions").asObject = none →
      resolve_package_version none registry_json =
        .error "Failed to find versions JSON section.") := by
  refine ⟨fun v j => rfl, fun j versions hv => ?_, fun j hv => ?_⟩
  · unfold resolve_package_version get_latest_version
    rw [hv]
    cases hg : (versions.map Prod.fst).getLast? <;> simp [hg]
  · unfold resolve_package_version get_latest_version
    rw [hv]

/-- C3 witness: with no supplied version, a registry document listing
versions 1.0.0 then 1.1.0 resolves to 1.1.0, the last key; a supplied
version 0.5.0 is used verbatim; a document without a `versions` object
fails. -/
theorem c3_witness :
    resolve_package_version none versionsDoc = .ok "1.1.0" ∧
    resolve_package_version (some "0.5.0") versionsDoc = .ok "0.5.0" ∧
    resolve_package_version none (Json.obj []) =
      .error "Failed to find versions JSON section." := by
  refine ⟨?_, c3_version_resolution.1 "0.5.0" versionsDoc,
    c3_version_resolution.2.2 (Json.obj []) rfl⟩
  have h := c3_version_resolution.2.1 versionsDoc
    [("1.0.0", Json.obj []), ("1.1.0", Json.obj [])] rfl
  simpa using h

/-- C4 counterexample: a valid JSON document that is not an object (the
number 5) makes the extractor return Ok with an empty record sequence, not
a parse error: serde read-indexing of a non-object yields Null, so the
work queue starts empty. This contradicts the claim that every valid-JSON
non-object document produces an error. -/
theorem c4_counterexample :
    get_dependencies (.ok (Json.num 5)) false = .ok [] := by
  simp [get_dependencies, parse_dependencies, initSections, Json.index, Json.asObject,
    bfsCollect_nil, sortDeps, List.insertionSort, List.dedup]

/-- C4 (amended): dependency extraction fails exactly when the document is
not valid JSON (the serde parse error is propagated); a valid JSON
document that is not an object yields Ok with the empty record sequence. -/
theorem c4_amended_parse_failure_only :
    (∀ (e : String) (inc : Bool), get_dependencies (.error e) inc = .error e) ∧
    (∀ (j : Json) (inc : Bool), j.asObject = none →
      get_dependencies (.ok j) inc = .ok []) := by
  refine ⟨fun e inc => rfl, fun j inc hj => ?_⟩
  have hidx : initSections j = [] := by
    unfold initSections
    cases j <;> simp_all [Json.index, Json.asObject]
  simp [get_dependencies, parse_dependencies, hidx, bfsCollect_nil, sortDeps,
    List.insertionSort, List.dedup]

/-- C4 witness: a failed JSON parse propagates its error; a valid JSON
string document yields Ok with no records. -/
theorem c4_witness :
    get_dependencies (.error "bad JSON") false = .error "bad JSON" ∧
    get_dependencies (.ok (Json.str "not an object")) true = .ok [] :=
  ⟨c4_amended_parse_failure_only.1 "bad JSON" false,
   c4_amended_parse_failure_only.2 (Json.str "not an object") true rfl⟩

/-- C5: in Operation A, when the caller supplies no version and some
extracted record carries the target package name, the resolved version is
the version of the maximum record among the same-named records — an m in
the filtered list that every filtered record is below-or-equal in the
record order (equivalently, the last element after ascending sort) — and
the operation succeeds with that resolved version. -/
theorem c5_resolved_version_is_max (package_name : String) (package_lock : Json)
    (h : (parse_dependencies package_lock false).filter
      (fun d => d.name == package_name) ≠ []) :
    ∃ m, m ∈ (parse_dependencies package_lock false).filter
        (fun d => d.name == package_name) ∧
      (∀ x ∈ (parse_dependencies package_lock false).filter
        (fun d => d.name == package_name), depR x m) ∧
      identify_package_dependencies package_name none package_lock =
        .ok [{ package_version := m.version,
               registry_host_name := get_registry_host_name,
               dependencies := (parse_dependencies package_lock false).filter
                 (fun d => d.name != package_name && d.version != m.version) }] := by
  have hsne : sortDeps ((parse_dependencies package_lock false).filter
      (fun d => d.name == package_name)) ≠ [] := by
    intro hnil
    apply h
    have hperm := sortDeps_perm ((parse_dependencies package_lock false).filter
      (fun d => d.name == package_name))
    rw [hnil] at hperm
    exact (List.perm_nil.mp hperm.symm)
  cases hr : (sortDeps ((parse_dependencies package_lock false).filter
      (fun d => d.name == package_name))).reverse with
  | nil => exact absurd (List.reverse_eq_nil_iff.mp hr) hsne
  | cons m t =>
    have hm : (sortDeps ((parse_dependencies package_lock false).filter
        (fun d => d.name == package_name))).reverse.head? = some m := by
      rw [hr]; rfl
    refine ⟨m, ?_, ?_, identify_none_version_some hm⟩
    · exact (sortDeps_perm _).mem_iff.mp (mem_of_reverse_head hm)
    · intro x hx
      exact sorted_rel_of_reverse_head (sortDeps_sorted _) hm
        ((sortDeps_perm _).mem_iff.mpr hx)

/-- C5 witness: in a lockfile listing the target t at versions 1.0.0 and
(nested) 1.5.0, the resolved version is that of the maximum record. -/
theorem c5_witness :
    ∃ m, m ∈ (parse_dependencies multiTargetLock false).filter
        (fun d => d.name == "t") ∧
      (∀ x ∈ (parse_dependencies multiTargetLock false).filter
        (fun d => d.name == "t"), depR x m) ∧
      identify_package_dependencies "t" none multiTargetLock =
        .ok [{ package_version := m.version,
               registry_host_name := get_registry_host_name,
               dependencies := (parse_dependencies multiTargetLock false).filter
                 (fun d => d.name != "t" && d.version != m.version) }] :=
  c5_resolved_version_is_max "t" multiTargetLock (by
    simp [multiTargetLock, parse_dependencies, initSections, bfsCollect, groupRecords,
      pushedGroups, devSkip, Json.index, Json.asObject, Json.asBool, Json.asStr,
      get_parsed_version, recordOf, sortDeps, List.insertionSort, List.orderedInsert,
      depR, depLe, verLe, List.dedup, List.find?]
    decide)

/-- C6: every PackageDependencySet returned by Operation A contains no
dependency record whose name equals the target package name. -/
theorem c6_no_self_reference {package_name : String} {package_version : Option String}
    {package_lock : Json} {res : List PackageDependencies}
    (h : identify_package_dependencies package_name package_version package_lock =
      .ok res) :
    ∀ pds ∈ res, ∀ d ∈ pds.dependencies, d.name ≠ package_name := by
  obtain ⟨pv, rfl⟩ := identify_ok_shape h
  intro pds hpds d hd
  rw [List.mem_singleton] at hpds
  subst hpds
  have hd' := List.mem_filter.mp hd
  have hb := hd'.2
  rw [Bool.and_eq_true] at hb
  exact bne_iff_ne.mp hb.1

/-- C6 witness: a successful Operation A run for target t on
`sharedVersionLock` (supplied version 1.0.0) returns the single record
w@2.0.0, whose name differs from the target's. -/
theorem c6_witness :
    ({ name := "w", version := Except.ok "2.0.0" } : Dependency).name ≠ "t" :=
  @c6_no_self_reference "t" (some "1.0.0") sharedVersionLock
    [{ package_version := Except.ok "1.0.0",
       registry_host_name := get_registry_host_name,
       dependencies := [{ name := "w", version := Except.ok "2.0.0" }] }]
    (by
      rw [identify_some_version]
      simp [sharedVersionLock, parse_dependencies, initSections, bfsCollect,
        groupRecords, pushedGroups, devSkip, Json.index, Json.asObject, Json.asBool,
        Json.asStr, get_parsed_version, recordOf, sortDeps, List.insertionSort,
        List.orderedInsert, depR, depLe, verLe, List.dedup, List.find?]
      decide)
    { package_version := Except.ok "1.0.0",
      registry_host_name := get_registry_host_name,
      dependencies := [{ name := "w", version := Except.ok "2.0.0" }] }
    (by decide)
    { name := "w", version := Except.ok "2.0.0" }
    (by decide)

/-- C7: the manifest locator (start directory given as an absolute
component list, as its precondition demands) returns exactly the full set
of recognized manifest files found at the first directory on the upward
path that contains at least one — the first hit of the ancestor chain,
never merging matches from different levels — and returns None when no
directory on the path up to and including the filesystem root contains
one, the root itself included in the search. Concretely, with a manifest
only at /a, locating from /a/b/c returns the manifest at /a. -/
theorem c7_locator_first_hit :
    (∀ (is_file : List String → Bool) (working_directory : List String),
      identify_dependency_files is_file working_directory =
        ((ancestorChain working_directory).find?
          (fun a => !(filesAt is_file a).isEmpty)).map (filesAt is_file)) ∧
    identify_dependency_files locatorExampleFs ["a", "b", "c"] =
      some [{ type := .npm, path := ["a", "package-lock.json"] }] := by
  constructor
  · intro f dir
    exact identify_dependency_files_eq_find f dir.length dir le_rfl
  · rw [identify_dependency_files_step (by rfl)]
    show identify_dependency_files locatorExampleFs ["a", "b"] = _
    rw [identify_dependency_files_step (by rfl)]
    show identify_dependency_files locatorExampleFs ["a"] = _
    rw [identify_dependency_files_found (by rfl)]
    rfl

/-- C8: an absent `version` field parses to the missing-version marker, an
empty `version` string parses to the missing-version marker, and every
visited entry passing the dev filter whose `version` is absent or empty
contributes a record carrying the marker to the (always successful)
extraction output — the rest of the document is still extracted. -/
theorem c8_missing_version_marker :
    get_parsed_version none = .error .missingVersion ∧
    get_parsed_version (some "") = .error .missingVersion ∧
    (∀ (inc : Bool) (doc : Json) (k : String) (e : Json),
      (k, e) ∈ visitedTop inc doc →
      ((e.index "version").asStr = none ∨ (e.index "version").asStr = some "") →
      ({ name := k, version := .error .missingVersion } : Dependency) ∈
        parse_dependencies doc inc) := by
  refine ⟨rfl, by decide, fun inc doc k e hv hver => ?_⟩
  rw [mem_parse_dependencies_iff, descTop_eq_map_visited]
  refine List.mem_map.mpr ⟨(k, e), hv, ?_⟩
  unfold recordOf
  rcases hver with h | h <;> simp [h, get_parsed_version]

/-- C8 witness: in a document whose entry a lacks a version, whose entry b
has an empty version and whose entry c is well-formed, both a and b
produce marker records and c is still extracted. -/
theorem c8_witness :
    ({ name := "a", version := .error .missingVersion } : Dependency) ∈
      parse_dependencies missingVersionDoc false ∧
    ({ name := "b", version := .error .missingVersion } : Dependency) ∈
      parse_dependencies missingVersionDoc false ∧
    ({ name := "c", version := .ok "1.0.0" } : Dependency) ∈
      parse_dependencies missingVersionDoc false := by
  refine ⟨c8_missing_version_marker.2.2 false missingVersionDoc "a" (Json.obj [])
      (by simp [missingVersionDoc, visitedTop, initSections, visitedEntries, devSkip,
        Json.index, Json.asObject, Json.asBool, List.find?])
      (Or.inl rfl),
    c8_missing_version_marker.2.2 false missingVersionDoc "b"
      (Json.obj [("version", Json.str "")])
      (by simp [missingVersionDoc, visitedTop, initSections, visitedEntries, devSkip,
        Json.index, Json.asObject, Json.asBool, List.find?])
      (Or.inr rfl), ?_⟩
  simp [missingVersionDoc, parse_dependencies, initSections, bfsCollect, groupRecords,
    pushedGroups, devSkip, Json.index, Json.asObject, Json.asBool, Json.asStr,
    get_parsed_version, recordOf, sortDeps, List.insertionSort, List.orderedInsert,
    depR, depLe, verLe, List.dedup, List.find?]
  decide

/-- C9: in Operation A with no supplied version, when no extracted record
carries the target package name, the operation fails with the
target-not-found error rather than returning any PackageDependencySet. -/
theorem c9_error_when_target_absent (package_name : String) (package_lock : Json)
    (h : ∀ d ∈ parse_dependencies package_lock false, d.name ≠ package_name) :
    identify_package_dependencies package_name none package_lock =
      .error "Failed to find target package in dependencies list." := by
  apply identify_none_version_none
  have hf : (parse_dependencies package_lock false).filter
      (fun d => d.name == package_name) = [] :=
    List.filter_eq_nil_iff.mpr (fun d hd => by
      simp only [beq_iff_eq]
      exact h d hd)
  rw [hf]
  rfl

/-- C9 witness: a lockfile with only x@1.0.0 makes Operation A for target
t (no supplied version) fail with the target-not-found error. -/
theorem c9_witness :
    identify_package_dependencies "t" none noTargetLock =
      .error "Failed to find target package in dependencies list." :=
  c9_error_when_target_absent "t" noTargetLock (by
    simp [noTargetLock, parse_dependencies, initSections, bfsCollect, groupRecords,
      pushedGroups, devSkip, Json.index, Json.asObject, Json.asBool, Json.asStr,
      get_parsed_version, recordOf, sortDeps, List.insertionSort, List.orderedInsert,
      depR, depLe, verLe, List.dedup, List.find?])

/-- C10: the final filter of Operation A removes every record whose
version-state equals the target's resolved version-state, regardless of
the record's name: no record of the returned dependencies sequence
carries the resolved target version. -/
theorem c10_no_record_with_resolved_version {package_name : String}
    {package_version : Option String} {package_lock : Json}
    {res : List PackageDependencies}
    (h : identify_package_dependencies package_name package_version package_lock =
      .ok res) :
    ∀ pds ∈ res, ∀ d ∈ pds.dependencies, d.version ≠ pds.package_version := by
  obtain ⟨pv, rfl⟩ := identify_ok_shape h
  intro pds hpds d hd
  rw [List.mem_singleton] at hpds
  subst hpds
  have hd' := List.mem_filter.mp hd
  have hb := hd'.2
  rw [Bool.and_eq_true] at hb
  exact bne_iff_ne.mp hb.2

/-- C10 witness: with target t resolved to 1.0.0 from `sharedVersionLock`
(no supplied version), the record u@1.0.0 — a different name carrying the
resolved version — is dropped along with t itself, leaving only w@2.0.0,
whose version differs from the resolved one. -/
theorem c10_witness :
    ({ name := "w", version := Except.ok "2.0.0" } : Dependency).version ≠
      ({ package_version := Except.ok "1.0.0",
         registry_host_name := get_registry_host_name,
         dependencies := [{ name := "w", version := Except.ok "2.0.0" }] }
        : PackageDependencies).package_version :=
  @c10_no_record_with_resolved_version "t" none sharedVersionLock
    [{ package_version := Except.ok "1.0.0",
       registry_host_name := get_registry_host_name,
       dependencies := [{ name := "w", version := Except.ok "2.0.0" }] }]
    (by
      have hh : (sortDeps ((parse_dependencies sharedVersionLock false).filter
          (fun d => d.name == "t"))).reverse.head? =
            some { name := "t", version := Except.ok "1.0.0" } := by
        simp [sharedVersionLock, parse_dependencies, initSections, bfsCollect,
          groupRecords, pushedGroups, devSkip, Json.index, Json.asObject, Json.asBool,
          Json.asStr, get_parsed_version, recordOf, sortDeps, List.insertionSort,
          List.orderedInsert, depR, depLe, verLe, List.dedup, List.find?]
      rw [identify_none_version_some hh]
      simp [sharedVersionLock, parse_dependencies, initSections, bfsCollect,
        groupRecords, pushedGroups, devSkip, Json.index, Json.asObject, Json.asBool,
        Json.asStr, get_parsed_version, recordOf, sortDeps, List.insertionSort,
        List.orderedInsert, depR, depLe, verLe, List.dedup, List.find?]
      decide)
    { package_version := Except.ok "1.0.0",
      registry_host_name := get_registry_host_name,
      dependencies := [{ name := "w", version := Except.ok "2.0.0" }] }
    (by decide)
    { name := "w", version := Except.ok "2.0.0" }
    (by decide)
